import Mathlib

/-!
Formal model of the FFmpeg hardware-encoder picture-scheduling engine whose
declarative surface is src/libavcodec/hw_base_encode.h.  The header provides
the data model (HWBaseEncodePicture, HWBaseEncodeContext), the fixed capacity
constants, the picture-type enumeration, the pictype-name helper and the
common option table.  The state-machine logic itself (GOP decision,
encode-order scheduling, reference/DPB construction, timestamp reconstruction
and the refcount lifecycle) lives in a C file that is not part of this source
drop; those operations are modelled from the specification, as noted on each
definition.
-/

/-- Capacity constant MAX_DPB_SIZE from hw_base_encode.h line 27. -/
def MAX_DPB_SIZE : Nat := 16

/-- Capacity constant MAX_PICTURE_REFERENCES from hw_base_encode.h line 28. -/
def MAX_PICTURE_REFERENCES : Nat := 2

/-- Capacity constant MAX_REORDER_DELAY from hw_base_encode.h line 29. -/
def MAX_REORDER_DELAY : Nat := 16

/-- Capacity constant MAX_ASYNC_DEPTH from hw_base_encode.h line 30. -/
def MAX_ASYNC_DEPTH : Nat := 64

/-- Capacity constant MAX_REFERENCE_LIST_NUM from hw_base_encode.h line 31. -/
def MAX_REFERENCE_LIST_NUM : Nat := 2

/-- Picture type enumeration value PICTURE_TYPE_IDR (hw_base_encode.h line 39). -/
def PICTURE_TYPE_IDR : Nat := 0

/-- Picture type enumeration value PICTURE_TYPE_I (hw_base_encode.h line 40). -/
def PICTURE_TYPE_I : Nat := 1

/-- Picture type enumeration value PICTURE_TYPE_P (hw_base_encode.h line 41). -/
def PICTURE_TYPE_P : Nat := 2

/-- Picture type enumeration value PICTURE_TYPE_B (hw_base_encode.h line 42). -/
def PICTURE_TYPE_B : Nat := 3

/-- The static 4-entry name array inside ff_hw_base_encode_get_pictype_name
(hw_base_encode.h line 34). -/
def picture_type_name : List String := ["IDR", "I", "P", "B"]

/-- Embedding of ff_hw_base_encode_get_pictype_name (hw_base_encode.h lines
33-36).  C array indexing is defined only inside the bounds of the 4-element
array, so the partial lookup is modelled with Option: an index outside 0..3
yields none. -/
def ff_hw_base_encode_get_pictype_name (type : Int) : Option String :=
  if 0 ≤ type then picture_type_name[type.toNat]? else none

/-- Size of the ts_ring array of HWBaseEncodeContext
(hw_base_encode.h lines 185-186): MAX_REORDER_DELAY * 3 + MAX_ASYNC_DEPTH. -/
def tsRingSize : Nat := MAX_REORDER_DELAY * 3 + MAX_ASYNC_DEPTH

/-- Modelled from the spec: the Timestamp Reconstructor's ring-buffer writes
(the body maintaining HWBaseEncodeContext.ts_ring is not in this source drop).
`ringWriteN ptsOf i` is the ring contents after the first `i` admissions, each
admission `j` storing `ptsOf j` at slot `j % tsRingSize`. -/
def ringWriteN (ptsOf : Nat → Int) : Nat → Nat → Int
  | 0, _ => 0
  | i + 1, j => if j = i % tsRingSize then ptsOf i else ringWriteN ptsOf i j

/-- Modelled from the spec: the dts clamping pass of the Timestamp
Reconstructor (the body computing packet dts is not in this source drop).
Takes the previously emitted dts (none at stream start) and the list of
computed raw dts values; a computed value lower than the previous output is
clamped up to it, so the emitted stream never goes backwards. -/
def reconstructDts : Option Int → List Int → List Int
  | _, [] => []
  | none, r :: rs => r :: reconstructDts (some r) rs
  | some d, r :: rs => max d r :: reconstructDts (some (max d r)) rs

/-- Modelled from the spec: the fixed pts-to-dts offset
(HWBaseEncodeContext.dts_pts_diff, hw_base_encode.h line 184), learned from
the first `decode_delay` frames and held constant thereafter. -/
def dts_pts_diff (ptsOf : Nat → Int) (decode_delay : Nat) : Int :=
  ptsOf decode_delay - ptsOf 0

/-- Modelled from the spec: the decode timestamps emitted at output
completion for outputs 0..n-1.  Output k retrieves the pts stored at ring
slot k and subtracts the fixed dts_pts_diff offset; the result stream is
then clamped to be monotonic. -/
def dtsOutputs (ptsOf : Nat → Int) (decode_delay n : Nat) : List Int :=
  reconstructDts none ((List.range n).map fun k =>
    ringWriteN ptsOf n (k % tsRingSize) - dts_pts_diff ptsOf decode_delay)

/-- Embedding of one AVOption row of HW_BASE_ENCODE_COMMON_OPTIONS
(hw_base_encode.h lines 236-248): option name, default, minimum and maximum. -/
structure AVOptionEntry where
  optName : String
  dflt : Int
  minVal : Int
  maxVal : Int

/-- The async_depth option row of HW_BASE_ENCODE_COMMON_OPTIONS
(hw_base_encode.h lines 245-248): default 2, range 1..MAX_ASYNC_DEPTH. -/
def async_depth_option : AVOptionEntry :=
  { optName := "async_depth", dflt := 2, minVal := 1, maxVal := (MAX_ASYNC_DEPTH : Int) }

/-- Modelled from the spec: the Scheduler's backpressure gate.  A picture may
be issued only while the number of issued-but-not-yet-output pictures is
strictly below async_depth. -/
def issueAllowed (async_depth inflight : Nat) : Bool :=
  decide (inflight < async_depth)

/-- Modelled from the spec: the reachable in-flight counts of the bounded
async pipeline.  Issuing requires a free slot (the issueAllowed gate); an
output event frees a slot. -/
inductive PipeReachable (async_depth : Nat) : Nat → Prop where
  | start : PipeReachable async_depth 0
  | issue : ∀ {n}, PipeReachable async_depth n → n < async_depth →
      PipeReachable async_depth (n + 1)
  | output : ∀ {n}, PipeReachable async_depth (n + 1) → PipeReachable async_depth n

/-- Modelled from the spec: the events the Lifecycle/Refcount Manager applies
to one Picture Record.  The two counters mirror
HWBaseEncodePicture.ref_count[2] (hw_base_encode.h line 102): index 0 tracks
the still-pending-completion concern, index 1 the referenced-by-others
concern; windowRelease is the record leaving the Admission Window. -/
inductive LcEvent where
  | retainPending
  | retainRef
  | releasePending
  | releaseRef
  | windowRelease
deriving DecidableEq

/-- Modelled from the spec: the lifecycle state of one Picture Record: the
two refcounts, window membership, whether it has been freed, and how many
times the free operation has run. -/
structure LcState where
  c0 : Int
  c1 : Int
  inWindow : Bool
  freed : Bool
  frees : Nat
deriving DecidableEq

/-- Lifecycle state of a freshly admitted record: both counts zero, in the
window, not freed. -/
def lcInit : LcState :=
  { c0 := 0, c1 := 0, inWindow := true, freed := false, frees := 0 }

/-- Modelled from the spec: the free check run after every release.  A record
is released to the free pool exactly when both counts are zero and it has
left the Admission Window, and only if it has not been freed already. -/
def lcCheckFree (s : LcState) : LcState :=
  if s.c0 = 0 ∧ s.c1 = 0 ∧ s.inWindow = false ∧ s.freed = false then
    { s with freed := true, frees := s.frees + 1 }
  else s

/-- Modelled from the spec: one Lifecycle Manager event applied to a record's
state.  Retains increment a counter; releases decrement one and then run the
free check, as does leaving the window. -/
def lcStep (s : LcState) : LcEvent → LcState
  | .retainPending => { s with c0 := s.c0 + 1 }
  | .retainRef => { s with c1 := s.c1 + 1 }
  | .releasePending => lcCheckFree { s with c0 := s.c0 - 1 }
  | .releaseRef => lcCheckFree { s with c1 := s.c1 - 1 }
  | .windowRelease => lcCheckFree { s with inWindow := false }

/-- Runs a whole lifecycle event trace on a fresh record. -/
def lcRun (tr : List LcEvent) : LcState := tr.foldl lcStep lcInit

/-- Number of retainPending events in a trace. -/
def cRet0 : List LcEvent → Nat
  | [] => 0
  | .retainPending :: tr => cRet0 tr + 1
  | _ :: tr => cRet0 tr

/-- Number of retainRef events in a trace. -/
def cRet1 : List LcEvent → Nat
  | [] => 0
  | .retainRef :: tr => cRet1 tr + 1
  | _ :: tr => cRet1 tr

/-- Number of releasePending events in a trace. -/
def cRel0 : List LcEvent → Nat
  | [] => 0
  | .releasePending :: tr => cRel0 tr + 1
  | _ :: tr => cRel0 tr

/-- Number of releaseRef events in a trace. -/
def cRel1 : List LcEvent → Nat
  | [] => 0
  | .releaseRef :: tr => cRel1 tr + 1
  | _ :: tr => cRel1 tr

/-- Modelled from the spec: the engine's release discipline, checked along
the trace with running counter values: a release of either concern is only
ever invoked while the corresponding count is positive (each release matches
an earlier retain). -/
def lcWfB : Int → Int → List LcEvent → Bool
  | _, _, [] => true
  | a, b, e :: tr =>
    match e with
    | .retainPending => lcWfB (a + 1) b tr
    | .retainRef => lcWfB a (b + 1) tr
    | .releasePending => decide (1 ≤ a) && lcWfB (a - 1) b tr
    | .releaseRef => decide (1 ≤ b) && lcWfB a (b - 1) tr
    | .windowRelease => lcWfB a b tr

/-- A trace is balanced when it obeys the release discipline starting from a
fresh record (both counts zero). -/
def LcBalanced (tr : List LcEvent) : Prop := lcWfB 0 0 tr = true

/-- Modelled from the spec: the configuration knobs of the GOP/Frame-Type
Decider that the scheduling claims depend on (gop_size and the effective
number of consecutive B pictures per anchor, derived from the configured
max_b_depth; hw_base_encode.h lines 188-194). -/
structure GopCfg where
  gop_size : Nat
  b_per_p : Nat

/-- Length of one GOP in frames: gop_size anchor slots, each preceded by
b_per_p B pictures (the model covers B depth 0 and 1). -/
def gopLen (cfg : GopCfg) : Nat := cfg.gop_size * (cfg.b_per_p + 1)

/-- Modelled from the spec: the deterministic GOP/Frame-Type Decider.  The
first picture of every GOP is an IDR; with no B pictures configured every
other picture is P; otherwise pictures alternate B/P inside the GOP with the
final picture of the GOP forced to P (a B is never placed where its future
reference would cross the GOP boundary). -/
def frameType (cfg : GopCfg) (d : Nat) : Nat :=
  if d % gopLen cfg = 0 then PICTURE_TYPE_IDR
  else if cfg.b_per_p = 0 then PICTURE_TYPE_P
  else if d % gopLen cfg % 2 = 1 ∧ d % gopLen cfg + 1 < gopLen cfg then PICTURE_TYPE_B
  else PICTURE_TYPE_P

/-- Model of HWBaseEncodePicture (hw_base_encode.h lines 61-104) restricted
to the fields the claims are about.  DPB entries and reference lists hold
display orders (stable handles) rather than raw pointers; refs0 is the past
reference list ref[0][], refs1 the future reference list ref[1][]. -/
structure Pic where
  display_order : Nat
  encode_order : Nat
  pts : Int
  type : Nat
  refs0 : List Nat
  refs1 : List Nat
  dpb : List Nat
  prev : Option Nat
deriving DecidableEq

/-- Modelled from the spec: the scheduling state of one encode session:
the Admission Window (display orders admitted but not yet issued, in display
order), the pictures issued so far in encode order, the next encode order
index, the current DPB contents, the most recently issued reference picture
(HWBaseEncodeContext.next_prev) and the next input order index. -/
structure SchedState where
  window : List Nat
  issued : List Pic
  encode_order : Nat
  dpbNow : List Nat
  lastRef : Option Nat
  input_order : Nat

/-- Initial scheduling state of a session. -/
def initState : SchedState :=
  { window := [], issued := [], encode_order := 0, dpbNow := [],
    lastRef := none, input_order := 0 }

/-- Modelled from the spec: past reference list construction by the
Reference & DPB Builder.  IDR pictures take no references; other pictures
select the most recent still-live DPB entries older than themselves, clamped
to the per-list cap (one past reference for a B, up to
MAX_PICTURE_REFERENCES for a P). -/
def buildRefs0 (cfg : GopCfg) (s : SchedState) (d : Nat) : List Nat :=
  if frameType cfg d = PICTURE_TYPE_IDR then []
  else if frameType cfg d = PICTURE_TYPE_B then
    (s.dpbNow.filter (fun x => decide (x < d))).take 1
  else (s.dpbNow.filter (fun x => decide (x < d))).take MAX_PICTURE_REFERENCES

/-- Modelled from the spec: future reference list construction.  Only a B
picture has a future reference (the following anchor), and only when that
anchor has already been admitted; at end-of-stream draining the list is
clamped to however many are available. -/
def buildRefs1 (cfg : GopCfg) (s : SchedState) (d : Nat) : List Nat :=
  if frameType cfg d = PICTURE_TYPE_B ∧ d + 1 < s.input_order then [d + 1] else []

/-- Modelled from the spec: the DPB contents after a picture is decoded.  An
IDR resets the DPB to just itself; a non-reference B leaves it unchanged; a
P joins it, evicting entries no longer referenced so the DPB stays within
the reference window. -/
def dpbAfter (cfg : GopCfg) (s : SchedState) (d : Nat) : List Nat :=
  if frameType cfg d = PICTURE_TYPE_IDR then [d]
  else if frameType cfg d = PICTURE_TYPE_B then s.dpbNow
  else (d :: s.dpbNow).take MAX_PICTURE_REFERENCES

/-- The Picture Record created when display order d is issued in state s. -/
def mkPic (cfg : GopCfg) (ptsOf : Nat → Int) (s : SchedState) (d : Nat) : Pic :=
  { display_order := d, encode_order := s.encode_order, pts := ptsOf d,
    type := frameType cfg d, refs0 := buildRefs0 cfg s d,
    refs1 := buildRefs1 cfg s d, dpb := dpbAfter cfg s d,
    prev := if frameType cfg d = PICTURE_TYPE_IDR then none else s.lastRef }

/-- Modelled from the spec: issuing one picture.  The picture leaves the
Admission Window, is appended to the issued stream with the next encode
order index, and the DPB and previous-reference tracking are updated. -/
def issuePic (cfg : GopCfg) (ptsOf : Nat → Int) (s : SchedState) (d : Nat) : SchedState :=
  { window := s.window.erase d,
    issued := s.issued ++ [mkPic cfg ptsOf s d],
    encode_order := s.encode_order + 1,
    dpbNow := dpbAfter cfg s d,
    lastRef := if frameType cfg d = PICTURE_TYPE_B then s.lastRef else some d,
    input_order := s.input_order }

/-- Modelled from the spec: the issuing decisions made right after admitting
display order d when d is an anchor (non-B): the anchor is issued at once,
and the B picture deferred at d-1 (whose future reference d is now issued)
is issued right after it. -/
def admitIssue (cfg : GopCfg) (ptsOf : Nat → Int) (s1 : SchedState) : Nat → SchedState
  | 0 => issuePic cfg ptsOf s1 0
  | e + 1 =>
    if frameType cfg e = PICTURE_TYPE_B then
      issuePic cfg ptsOf (issuePic cfg ptsOf s1 (e + 1)) e
    else issuePic cfg ptsOf s1 (e + 1)

/-- Modelled from the spec: admitting the next frame.  The frame enters the
Admission Window at the tail; a B picture is deferred until its future
reference arrives, while an anchor is scheduled immediately (followed by the
B it unblocks). -/
def acceptFrame (cfg : GopCfg) (ptsOf : Nat → Int) (s : SchedState) : SchedState :=
  if frameType cfg s.input_order = PICTURE_TYPE_B then
    { s with window := s.window ++ [s.input_order], input_order := s.input_order + 1 }
  else
    admitIssue cfg ptsOf
      { s with window := s.window ++ [s.input_order], input_order := s.input_order + 1 }
      s.input_order

/-- Admits frames with display orders 0..n-1 in display order. -/
def acceptN (cfg : GopCfg) (ptsOf : Nat → Int) : Nat → SchedState
  | 0 => initState
  | n + 1 => acceptFrame cfg ptsOf (acceptN cfg ptsOf n)

/-- Modelled from the spec: end-of-stream draining.  Every picture still in
the Admission Window is issued, in window order, skipping the normal
lookahead requirement. -/
def drainAux (cfg : GopCfg) (ptsOf : Nat → Int) : SchedState → List Nat → SchedState
  | s, [] => s
  | s, d :: ds => drainAux cfg ptsOf (issuePic cfg ptsOf s d) ds

/-- Modelled from the spec: a whole encode session: admit n frames in display
order, then signal end-of-stream and drain the Admission Window. -/
def runSession (cfg : GopCfg) (ptsOf : Nat → Int) (n : Nat) : SchedState :=
  drainAux cfg ptsOf (acceptN cfg ptsOf n) (acceptN cfg ptsOf n).window

/-- A picture's future references are sound: every entry of refs1 names a
picture issued strictly earlier in encode order (hence admitted before this
picture was issued). -/
def FutureOk (issued : List Pic) (pic : Pic) : Prop :=
  ∀ r ∈ pic.refs1, ∃ q ∈ issued, q.display_order = r ∧ q.encode_order < pic.encode_order

/-- The per-picture invariants: DPB and reference lists within their fixed
caps, the prev back-reference a member of a reference list or the DPB
(hw_base_encode.h lines 96-98), and sound future references. -/
def PicOk (issued : List Pic) (pic : Pic) : Prop :=
  pic.dpb.length ≤ MAX_DPB_SIZE ∧
  pic.refs0.length ≤ MAX_PICTURE_REFERENCES ∧
  pic.refs1.length ≤ MAX_PICTURE_REFERENCES ∧
  (∀ r, pic.prev = some r → r ∈ pic.refs0 ∨ r ∈ pic.refs1 ∨ r ∈ pic.dpb) ∧
  FutureOk issued pic

/-- The exact contents of the Admission Window after k admissions: at most
the single B picture deferred until its future reference arrives. -/
def windowShape (cfg : GopCfg) : Nat → List Nat
  | 0 => []
  | k + 1 => if frameType cfg k = PICTURE_TYPE_B then [k] else []

/-- The session invariant maintained by admission. -/
structure SchedInv (cfg : GopCfg) (k : Nat) (s : SchedState) : Prop where
  inOrd : s.input_order = k
  encEq : s.encode_order = s.issued.length
  encList : s.issued.map Pic.encode_order = List.range s.issued.length
  winShape : s.window = windowShape cfg k
  perm : (s.issued.map Pic.display_order ++ s.window).Perm (List.range k)
  dpbLen : s.dpbNow.length ≤ MAX_PICTURE_REFERENCES
  lastHead : ∀ r, s.lastRef = some r → s.dpbNow.head? = some r
  picsOk : ∀ pic ∈ s.issued, PicOk s.issued pic

/-- Configuration of the C7 scenario: GOP of 4 anchor pictures, B depth 1,
IDR every GOP. -/
def c7cfg : GopCfg := { gop_size := 4, b_per_p := 1 }

/-- The pts values of the C7 scenario, in milliseconds. -/
def c7ptsList : List Int := [0, 33, 67, 100, 133, 167, 200, 233]

/-- The pts input function of the C7 scenario. -/
def c7pts : Nat → Int := fun d => c7ptsList.getD d 0

/-- A default Picture Record used only as the fallback of list lookups. -/
def dPic : Pic :=
  { display_order := 0, encode_order := 0, pts := 0, type := 0,
    refs0 := [], refs1 := [], dpb := [], prev := none }

/-- A sample lifecycle trace: the record is retained by the pipeline and by
one referring picture, completes, leaves the window, and loses its last
reference. -/
def c2trace : List LcEvent :=
  [.retainPending, .retainRef, .releasePending, .windowRelease, .releaseRef]

/-- Helper: the pictype-name lookup is none above index 3 (past the end of
the 4-element array). -/
lemma pictype_none_of_gt (t : Int) (h : 3 < t) :
    ff_hw_base_encode_get_pictype_name t = none := by
  unfold ff_hw_base_encode_get_pictype_name
  rw [if_pos (by omega)]
  have hlen : picture_type_name.length = 4 := rfl
  have h4 : picture_type_name.length ≤ t.toNat := by omega
  exact List.getElem?_eq_none h4

/-- C9: ff_hw_base_encode_get_pictype_name returns exactly "IDR", "I", "P",
"B" for the inputs PICTURE_TYPE_IDR..PICTURE_TYPE_B (0..3), and is undefined
for every other input, where the lookup would index outside the 4-element
name array. -/
theorem pictype_name_spec :
    ff_hw_base_encode_get_pictype_name 0 = some "IDR" ∧
    ff_hw_base_encode_get_pictype_name 1 = some "I" ∧
    ff_hw_base_encode_get_pictype_name 2 = some "P" ∧
    ff_hw_base_encode_get_pictype_name 3 = some "B" ∧
    ∀ t : Int, t < 0 ∨ 3 < t → ff_hw_base_encode_get_pictype_name t = none := by
  refine ⟨by decide, by decide, by decide, by decide, ?_⟩
  intro t ht
  rcases ht with ht | ht
  · unfold ff_hw_base_encode_get_pictype_name
    rw [if_neg (by omega)]
  · exact pictype_none_of_gt t ht

/-- Witness for C9: the out-of-range branch at the concrete input 7. -/
theorem pictype_name_spec_witness :
    ff_hw_base_encode_get_pictype_name 7 = none :=
  pictype_name_spec.2.2.2.2 7 (Or.inr (by decide))

/-- Helper: every value the clamping pass emits is at least the previous
output. -/
lemma reconstructDts_ge (rs : List Int) :
    ∀ d, ∀ x ∈ reconstructDts (some d) rs, d ≤ x := by
  induction rs with
  | nil => intro d x hx; simp [reconstructDts] at hx
  | cons r rs ih =>
    intro d x hx
    simp only [reconstructDts] at hx
    rcases List.mem_cons.mp hx with h | h
    · subst h; exact le_max_left _ _
    · exact le_trans (le_max_left _ _) (ih (max d r) x h)

/-- Helper: starting from any previous output, the clamped stream is
monotonically non-decreasing. -/
lemma reconstructDts_chain (rs : List Int) :
    ∀ d, List.Chain' (· ≤ ·) (reconstructDts (some d) rs) := by
  induction rs with
  | nil => intro d; simp [reconstructDts]
  | cons r rs ih =>
    intro d
    simp only [reconstructDts]
    refine List.chain'_cons'.mpr ⟨?_, ih (max d r)⟩
    intro b hb
    exact reconstructDts_ge rs (max d r) b (List.mem_of_mem_head? hb)

/-- Helper: the clamped stream is monotone from stream start as well. -/
lemma reconstructDts_chain_none (rs : List Int) :
    List.Chain' (· ≤ ·) (reconstructDts none rs) := by
  cases rs with
  | nil => simp [reconstructDts]
  | cons r rs =>
    simp only [reconstructDts]
    refine List.chain'_cons'.mpr ⟨?_, reconstructDts_chain rs r⟩
    intro b hb
    exact reconstructDts_ge rs r b (List.mem_of_mem_head? hb)

/-- C4: for every input pts sequence the decode timestamps emitted at output
completion (pts retrieved from the ring minus the fixed dts_pts_diff offset)
are monotonically non-decreasing; a computed dts that respects monotonicity
is emitted unchanged, and one that would violate it is clamped up to the
previous output instead of being emitted out of order. -/
theorem dts_monotone :
    (∀ ptsOf decode_delay n, List.Chain' (· ≤ ·) (dtsOutputs ptsOf decode_delay n)) ∧
    (∀ d r rs, d ≤ r →
      reconstructDts (some d) (r :: rs) = r :: reconstructDts (some r) rs) ∧
    (∀ d r rs, r < d →
      reconstructDts (some d) (r :: rs) = d :: reconstructDts (some d) rs) := by
  refine ⟨fun ptsOf dd n => reconstructDts_chain_none _, ?_, ?_⟩
  · intro d r rs h
    simp [reconstructDts, max_eq_right h]
  · intro d r rs h
    simp [reconstructDts, max_eq_left (le_of_lt h)]

/-- Witness for C4: the clamp branches at concrete inputs. -/
theorem dts_monotone_witness :
    (0 : Int) ≤ 1 ∧
    reconstructDts (some (0 : Int)) [1] = 1 :: reconstructDts (some (1 : Int)) [] :=
  ⟨by decide, dts_monotone.2.1 0 1 [] (by decide)⟩

/-- Helper: while the writer is no more than
MAX_REORDER_DELAY + MAX_ASYNC_DEPTH admissions ahead of the reader, the ring
slot of entry k still holds the pts written for entry k. -/
lemma ringWriteN_live (ptsOf : Nat → Int) (k : Nat) :
    ∀ i, k < i → i ≤ k + (MAX_REORDER_DELAY + MAX_ASYNC_DEPTH) →
      ringWriteN ptsOf i (k % tsRingSize) = ptsOf k := by
  intro i
  induction i with
  | zero => intro h1 _; omega
  | succ m ih =>
    intro h1 h2
    have hcap : MAX_REORDER_DELAY + MAX_ASYNC_DEPTH = 80 := by decide
    have hts : tsRingSize = 112 := by decide
    by_cases hk : k = m
    · subst hk
      simp [ringWriteN]
    · have hkm : k < m := by omega
      have hne : ¬ (k % tsRingSize = m % tsRingSize) := by
        intro he
        have hdvd : tsRingSize ∣ m - k :=
          (Nat.modEq_iff_dvd' (le_of_lt hkm)).mp he
        have hle : tsRingSize ≤ m - k := Nat.le_of_dvd (by omega) hdvd
        omega
      simp only [ringWriteN]
      rw [if_neg hne]
      exact ih hkm (by omega)

/-- C6: the ts_ring capacity MAX_REORDER_DELAY * 3 + MAX_ASYNC_DEPTH is at
least the maximum combination of reorder delay and async depth, so a pts
stored at its slot on admission is never overwritten before the output that
is at most MAX_REORDER_DELAY + MAX_ASYNC_DEPTH entries behind retrieves it:
the retrieved value is exactly the pts admitted for that entry. -/
theorem ts_ring_no_overwrite :
    MAX_REORDER_DELAY + MAX_ASYNC_DEPTH ≤ tsRingSize ∧
    ∀ ptsOf k i, k < i → i ≤ k + (MAX_REORDER_DELAY + MAX_ASYNC_DEPTH) →
      ringWriteN ptsOf i (k % tsRingSize) = ptsOf k :=
  ⟨by decide, fun ptsOf k i h1 h2 => ringWriteN_live ptsOf k i h1 h2⟩

/-- Witness for C6: reading entry 0 after 5 admissions. -/
theorem ts_ring_no_overwrite_witness :
    0 < 5 ∧ 5 ≤ 0 + (MAX_REORDER_DELAY + MAX_ASYNC_DEPTH) ∧
    ringWriteN (fun d => (d : Int)) 5 (0 % tsRingSize) = ((0 : Nat) : Int) :=
  ⟨by decide, by decide,
    ts_ring_no_overwrite.2 (fun d => (d : Int)) 0 5 (by decide) (by decide)⟩

/-- Helper: every reachable in-flight count respects the bound. -/
lemma pipeReachable_le (ad : Nat) : ∀ n, PipeReachable ad n → n ≤ ad := by
  intro n h
  induction h with
  | start => exact Nat.zero_le ad
  | issue _ h2 _ => omega
  | output _ ih => omega

/-- C5: the number of pictures simultaneously issued-but-not-yet-output
never exceeds async_depth; async_depth is declared with range 1..64
(1..MAX_ASYNC_DEPTH) in the option table; and when the bound is reached the
backpressure gate refuses to issue until an output frees a slot. -/
theorem async_depth_bound :
    async_depth_option.minVal = 1 ∧ async_depth_option.maxVal = 64 ∧
    (∀ ad n, PipeReachable ad n → n ≤ ad) ∧
    (∀ ad, issueAllowed ad ad = false) := by
  refine ⟨by decide, by decide, fun ad n h => pipeReachable_le ad n h, ?_⟩
  intro ad
  simp [issueAllowed]

/-- Witness for C5: a concrete reachable pipeline state under the default
async_depth of 2. -/
theorem async_depth_bound_witness :
    PipeReachable 2 1 ∧ 1 ≤ 2 :=
  ⟨PipeReachable.issue PipeReachable.start (by decide),
    async_depth_bound.2.2.1 2 1 (PipeReachable.issue PipeReachable.start (by decide))⟩

/-- Helper: the free check never changes the pending-completion count. -/
lemma lcCheckFree_c0 (s : LcState) : (lcCheckFree s).c0 = s.c0 := by
  unfold lcCheckFree; split <;> rfl

/-- Helper: the free check never changes the referenced-by-others count. -/
lemma lcCheckFree_c1 (s : LcState) : (lcCheckFree s).c1 = s.c1 := by
  unfold lcCheckFree; split <;> rfl

/-- Helper: the free check never changes window membership. -/
lemma lcCheckFree_inWindow (s : LcState) : (lcCheckFree s).inWindow = s.inWindow := by
  unfold lcCheckFree; split <;> rfl

/-- Helper: the pending count after a trace is the initial count plus retains
minus releases of that concern. -/
lemma lcFold_c0 : ∀ (tr : List LcEvent) (s : LcState),
    (tr.foldl lcStep s).c0 = s.c0 + (cRet0 tr : Int) - (cRel0 tr : Int) := by
  intro tr
  induction tr with
  | nil => intro s; simp [cRet0, cRel0]
  | cons e tr ih =>
    intro s
    rw [List.foldl_cons, ih]
    cases e <;> simp [lcStep, cRet0, cRel0, lcCheckFree_c0] <;> omega

/-- Helper: the reference count after a trace is the initial count plus
retains minus releases of that concern. -/
lemma lcFold_c1 : ∀ (tr : List LcEvent) (s : LcState),
    (tr.foldl lcStep s).c1 = s.c1 + (cRet1 tr : Int) - (cRel1 tr : Int) := by
  intro tr
  induction tr with
  | nil => intro s; simp [cRet1, cRel1]
  | cons e tr ih =>
    intro s
    rw [List.foldl_cons, ih]
    cases e <;> simp [lcStep, cRet1, cRel1, lcCheckFree_c1] <;> omega

/-- Helper: under the release discipline, the running counts stay
non-negative on every trace prefix. -/
lemma lcWfB_take : ∀ (tr : List LcEvent) (a b : Int), 0 ≤ a → 0 ≤ b →
    lcWfB a b tr = true →
    ∀ m, 0 ≤ a + (cRet0 (tr.take m) : Int) - (cRel0 (tr.take m) : Int) ∧
         0 ≤ b + (cRet1 (tr.take m) : Int) - (cRel1 (tr.take m) : Int) := by
  intro tr
  induction tr with
  | nil =>
    intro a b ha hb _ m
    simp [cRet0, cRel0, cRet1, cRel1]
    omega
  | cons e tr ih =>
    intro a b ha hb hwf m
    cases m with
    | zero => simp [cRet0, cRel0, cRet1, cRel1]; omega
    | succ m =>
      rw [List.take_succ_cons]
      cases e with
      | retainPending =>
        simp only [lcWfB] at hwf
        have h := ih (a + 1) b (by omega) hb hwf m
        simp [cRet0, cRel0, cRet1, cRel1]
        omega
      | retainRef =>
        simp only [lcWfB] at hwf
        have h := ih a (b + 1) ha (by omega) hwf m
        simp [cRet0, cRel0, cRet1, cRel1]
        omega
      | releasePending =>
        simp only [lcWfB, Bool.and_eq_true, decide_eq_true_eq] at hwf
        have h := ih (a - 1) b (by omega) hb hwf.2 m
        simp [cRet0, cRel0, cRet1, cRel1]
        omega
      | releaseRef =>
        simp only [lcWfB, Bool.and_eq_true, decide_eq_true_eq] at hwf
        have h := ih a (b - 1) ha (by omega) hwf.2 m
        simp [cRet0, cRel0, cRet1, cRel1]
        omega
      | windowRelease =>
        simp only [lcWfB] at hwf
        have h := ih a b ha hb hwf m
        simp [cRet0, cRel0, cRet1, cRel1]
        omega

/-- Helper: the free-counter book-keeping invariant: the counter is 0 before
the record is freed and exactly 1 after. -/
def LcGood (s : LcState) : Prop :=
  (s.freed = false → s.frees = 0) ∧ (s.freed = true → s.frees = 1)

/-- Helper: the free check preserves the free-counter invariant. -/
lemma lcCheckFree_good (s : LcState) (h : LcGood s) : LcGood (lcCheckFree s) := by
  unfold lcCheckFree
  split
  · rename_i hc
    refine ⟨fun hf => by simp at hf, fun _ => ?_⟩
    have h0 := h.1 hc.2.2.2
    simp [h0]
  · exact h

/-- Helper: every lifecycle event preserves the free-counter invariant. -/
lemma lcStep_good (s : LcState) (e : LcEvent) (h : LcGood s) : LcGood (lcStep s e) := by
  cases e with
  | retainPending => exact h
  | retainRef => exact h
  | releasePending => exact lcCheckFree_good _ h
  | releaseRef => exact lcCheckFree_good _ h
  | windowRelease => exact lcCheckFree_good _ h

/-- Helper: the free-counter invariant holds after any trace. -/
lemma lcRun_good (tr : List LcEvent) : LcGood (lcRun tr) := by
  have hgen : ∀ (l : List LcEvent) (s : LcState), LcGood s → LcGood (l.foldl lcStep s) := by
    intro l
    induction l with
    | nil => intro s h; exact h
    | cons e l ih => intro s h; exact ih _ (lcStep_good s e h)
  exact hgen tr lcInit ⟨fun _ => rfl, fun h => by simp [lcInit] at h⟩

/-- Helper: taking at most the length of the left part of an append ignores
the right part. -/
lemma take_append_le {α : Type} (l1 l2 : List α) :
    ∀ m, m ≤ l1.length → (l1 ++ l2).take m = l1.take m := by
  induction l1 with
  | nil =>
    intro m h
    have hm : m = 0 := Nat.le_zero.mp h
    subst hm
    rfl
  | cons a l ih =>
    intro m h
    cases m with
    | zero => rfl
    | succ m =>
      simp only [List.cons_append, List.take_succ_cons]
      rw [ih m (by simpa using h)]

/-- Helper: running a trace extended by one event is one step on the run of
the trace. -/
lemma lcRun_append_one (tr : List LcEvent) (e : LcEvent) :
    lcRun (tr ++ [e]) = lcStep (lcRun tr) e := by
  simp [lcRun, List.foldl_append]

/-- Helper: the free check never un-frees a record. -/
lemma lcCheckFree_freed_mono (s : LcState) (h : s.freed = true) :
    (lcCheckFree s).freed = true := by
  unfold lcCheckFree
  split
  · rfl
  · exact h

/-- Helper: no lifecycle event un-frees a record. -/
lemma lcStep_freed_mono (s : LcState) (e : LcEvent) (h : s.freed = true) :
    (lcStep s e).freed = true := by
  cases e with
  | retainPending => exact h
  | retainRef => exact h
  | releasePending => exact lcCheckFree_freed_mono _ h
  | releaseRef => exact lcCheckFree_freed_mono _ h
  | windowRelease => exact lcCheckFree_freed_mono _ h

/-- Helper: when the free check flips freed on, the resulting state has both
counts zero and has left the window. -/
lemma lcCheckFree_fire (t : LcState) (h1 : (lcCheckFree t).freed = true)
    (h2 : t.freed = false) :
    (lcCheckFree t).c0 = 0 ∧ (lcCheckFree t).c1 = 0 ∧ (lcCheckFree t).inWindow = false := by
  by_cases hc : t.c0 = 0 ∧ t.c1 = 0 ∧ t.inWindow = false ∧ t.freed = false
  · simp only [lcCheckFree, if_pos hc]
    exact ⟨hc.1, hc.2.1, hc.2.2.1⟩
  · simp only [lcCheckFree, if_neg hc] at h1
    exact absurd h1 (by simp [h2])

/-- Helper: when one event flips freed on, the resulting state has both
counts zero and has left the window. -/
lemma lcStep_free_fire (s : LcState) (e : LcEvent) (h1 : (lcStep s e).freed = true)
    (h2 : s.freed = false) :
    (lcStep s e).c0 = 0 ∧ (lcStep s e).c1 = 0 ∧ (lcStep s e).inWindow = false := by
  cases e with
  | retainPending => exact absurd h1 (by simp [lcStep, h2])
  | retainRef => exact absurd h1 (by simp [lcStep, h2])
  | releasePending => exact lcCheckFree_fire _ h1 h2
  | releaseRef => exact lcCheckFree_fire _ h1 h2
  | windowRelease => exact lcCheckFree_fire _ h1 h2

/-- Helper: a freed record was freed at a moment when both counts were zero
and it had left the window. -/
lemma freed_moment (tr : List LcEvent) :
    (lcRun tr).freed = true →
    ∃ m, (lcRun (tr.take m)).c0 = 0 ∧ (lcRun (tr.take m)).c1 = 0 ∧
         (lcRun (tr.take m)).inWindow = false := by
  induction tr using List.reverseRecOn with
  | nil => intro h; simp [lcRun, lcInit] at h
  | append_singleton tr e ih =>
    intro h
    by_cases hf : (lcRun tr).freed = true
    · obtain ⟨m, hm⟩ := ih hf
      by_cases hm2 : m ≤ tr.length
      · exact ⟨m, by rwa [take_append_le tr [e] m hm2]⟩
      · have htk : tr.take m = tr := List.take_of_length_le (by omega)
        refine ⟨tr.length, ?_⟩
        rw [take_append_le tr [e] tr.length (le_refl _), List.take_length]
        rwa [htk] at hm
    · rw [lcRun_append_one] at h
      have hfire := lcStep_free_fire (lcRun tr) e h (by
        cases hb : (lcRun tr).freed
        · rfl
        · exact absurd hb hf)
      refine ⟨(tr ++ [e]).length, ?_⟩
      rw [List.take_length, lcRun_append_one]
      exact hfire

/-- Helper: once the record has left the window it never re-enters. -/
lemma lcFold_inWindow_false : ∀ (tr : List LcEvent) (s : LcState),
    s.inWindow = false → (tr.foldl lcStep s).inWindow = false := by
  intro tr
  induction tr with
  | nil => intro s h; exact h
  | cons e tr ih =>
    intro s h
    rw [List.foldl_cons]
    refine ih _ ?_
    cases e with
    | retainPending => exact h
    | retainRef => exact h
    | releasePending => simp only [lcStep]; rw [lcCheckFree_inWindow]; exact h
    | releaseRef => simp only [lcStep]; rw [lcCheckFree_inWindow]; exact h
    | windowRelease => simp only [lcStep]; rw [lcCheckFree_inWindow]

/-- Helper: after a trace containing a windowRelease the record is out of
the window. -/
lemma lcFold_mem_inWindow : ∀ (tr : List LcEvent) (s : LcState),
    LcEvent.windowRelease ∈ tr → (tr.foldl lcStep s).inWindow = false := by
  intro tr
  induction tr with
  | nil => intro s h; simp at h
  | cons e tr ih =>
    intro s h
    rcases List.mem_cons.mp h with he | he
    · rw [List.foldl_cons]
      refine lcFold_inWindow_false tr _ ?_
      rw [← he]
      simp only [lcStep]
      rw [lcCheckFree_inWindow]
    · rw [List.foldl_cons]
      exact ih _ he

/-- Helper: a discipline-respecting trace stays discipline-respecting when
its tail is cut off. -/
lemma lcWfB_append : ∀ (tr tr2 : List LcEvent) (a b : Int),
    lcWfB a b (tr ++ tr2) = true → lcWfB a b tr = true := by
  intro tr
  induction tr with
  | nil => intro tr2 a b _; rfl
  | cons e tr ih =>
    intro tr2 a b h
    cases e with
    | retainPending => exact ih tr2 _ _ h
    | retainRef => exact ih tr2 _ _ h
    | releasePending =>
      simp only [List.cons_append, lcWfB, Bool.and_eq_true] at h ⊢
      exact ⟨h.1, ih tr2 _ _ h.2⟩
    | releaseRef =>
      simp only [List.cons_append, lcWfB, Bool.and_eq_true] at h ⊢
      exact ⟨h.1, ih tr2 _ _ h.2⟩
    | windowRelease => exact ih tr2 _ _ h

/-- Helper: the retain counters add over append. -/
lemma cRet0_append : ∀ (l1 l2 : List LcEvent), cRet0 (l1 ++ l2) = cRet0 l1 + cRet0 l2 := by
  intro l1 l2
  induction l1 with
  | nil => simp [cRet0]
  | cons e l ih => cases e <;> simp [cRet0, ih] <;> omega

/-- Helper: the retain counters add over append (second concern). -/
lemma cRet1_append : ∀ (l1 l2 : List LcEvent), cRet1 (l1 ++ l2) = cRet1 l1 + cRet1 l2 := by
  intro l1 l2
  induction l1 with
  | nil => simp [cRet1]
  | cons e l ih => cases e <;> simp [cRet1, ih] <;> omega

/-- Helper: the release counters add over append. -/
lemma cRel0_append : ∀ (l1 l2 : List LcEvent), cRel0 (l1 ++ l2) = cRel0 l1 + cRel0 l2 := by
  intro l1 l2
  induction l1 with
  | nil => simp [cRel0]
  | cons e l ih => cases e <;> simp [cRel0, ih] <;> omega

/-- Helper: the release counters add over append (second concern). -/
lemma cRel1_append : ∀ (l1 l2 : List LcEvent), cRel1 (l1 ++ l2) = cRel1 l1 + cRel1 l2 := by
  intro l1 l2
  induction l1 with
  | nil => simp [cRel1]
  | cons e l ih => cases e <;> simp [cRel1, ih] <;> omega

/-- Helper: the free check fires when both counts are zero, the record has
left the window and it is not yet freed. -/
lemma lcCheckFree_fires (t : LcState)
    (h : t.c0 = 0 ∧ t.c1 = 0 ∧ t.inWindow = false ∧ t.freed = false) :
    (lcCheckFree t).freed = true := by
  rw [lcCheckFree, if_pos h]

/-- Helper: a balanced trace whose releases fully match its retains and that
releases the window ends with the record freed. -/
lemma lc_complete : ∀ (tr : List LcEvent), LcBalanced tr →
    cRel0 tr = cRet0 tr → cRel1 tr = cRet1 tr → LcEvent.windowRelease ∈ tr →
    (lcRun tr).freed = true := by
  intro tr
  induction tr using List.reverseRecOn with
  | nil => intro _ _ _ h; simp at h
  | append_singleton tr e ih =>
    intro hbal h0 h1 hw
    by_cases hf : (lcRun tr).freed = true
    · rw [lcRun_append_one]; exact lcStep_freed_mono _ e hf
    · have hfF : (lcRun tr).freed = false := by
        cases hb : (lcRun tr).freed
        · rfl
        · exact absurd hb hf
      have hbal' : LcBalanced tr := lcWfB_append tr [e] 0 0 hbal
      have hc0 : (lcRun tr).c0 = (cRet0 tr : Int) - (cRel0 tr : Int) := by
        have := lcFold_c0 tr lcInit
        simpa [lcRun, lcInit] using this
      have hc1 : (lcRun tr).c1 = (cRet1 tr : Int) - (cRel1 tr : Int) := by
        have := lcFold_c1 tr lcInit
        simpa [lcRun, lcInit] using this
      have hnn := lcWfB_take tr 0 0 (le_refl 0) (le_refl 0) hbal' tr.length
      rw [List.take_length] at hnn
      cases e with
      | retainPending =>
        exfalso
        rw [cRet0_append, cRel0_append] at h0
        simp [cRet0, cRel0] at h0
        omega
      | retainRef =>
        exfalso
        rw [cRet1_append, cRel1_append] at h1
        simp [cRet1, cRel1] at h1
        omega
      | releasePending =>
        rw [cRet0_append, cRel0_append] at h0
        rw [cRet1_append, cRel1_append] at h1
        simp [cRet0, cRel0, cRet1, cRel1] at h0 h1
        have hwtr : LcEvent.windowRelease ∈ tr := by
          rcases List.mem_append.mp hw with h | h
          · exact h
          · simp at h
        have hwin : (lcRun tr).inWindow = false := lcFold_mem_inWindow tr lcInit hwtr
        rw [lcRun_append_one]
        simp only [lcStep]
        refine lcCheckFree_fires _ ⟨?_, ?_, ?_, ?_⟩
        · show (lcRun tr).c0 - 1 = 0
          omega
        · show (lcRun tr).c1 = 0
          omega
        · show (lcRun tr).inWindow = false
          exact hwin
        · show (lcRun tr).freed = false
          exact hfF
      | releaseRef =>
        rw [cRet0_append, cRel0_append] at h0
        rw [cRet1_append, cRel1_append] at h1
        simp [cRet0, cRel0, cRet1, cRel1] at h0 h1
        have hwtr : LcEvent.windowRelease ∈ tr := by
          rcases List.mem_append.mp hw with h | h
          · exact h
          · simp at h
        have hwin : (lcRun tr).inWindow = false := lcFold_mem_inWindow tr lcInit hwtr
        rw [lcRun_append_one]
        simp only [lcStep]
        refine lcCheckFree_fires _ ⟨?_, ?_, ?_, ?_⟩
        · show (lcRun tr).c0 = 0
          omega
        · show (lcRun tr).c1 - 1 = 0
          omega
        · show (lcRun tr).inWindow = false
          exact hwin
        · show (lcRun tr).freed = false
          exact hfF
      | windowRelease =>
        rw [cRet0_append, cRel0_append] at h0
        rw [cRet1_append, cRel1_append] at h1
        simp [cRet0, cRel0, cRet1, cRel1] at h0 h1
        rw [lcRun_append_one]
        simp only [lcStep]
        refine lcCheckFree_fires _ ⟨?_, ?_, rfl, ?_⟩
        · show (lcRun tr).c0 = 0
          omega
        · show (lcRun tr).c1 = 0
          omega
        · show (lcRun tr).freed = false
          exact hfF

/-- C2: under the engine's release discipline (each release matched by an
earlier retain), neither refcount of a Picture Record ever becomes negative
at any point of the trace; the record is freed at most once; a freed record
was freed at a moment when both counts were zero and it had left the
Admission Window; and when both concerns are fully released and the window
release has happened, the record is freed exactly once. -/
theorem refcount_discipline (tr : List LcEvent) (hbal : LcBalanced tr) :
    (∀ m, 0 ≤ (lcRun (tr.take m)).c0 ∧ 0 ≤ (lcRun (tr.take m)).c1) ∧
    (lcRun tr).frees ≤ 1 ∧
    ((lcRun tr).freed = true →
      ∃ m, (lcRun (tr.take m)).c0 = 0 ∧ (lcRun (tr.take m)).c1 = 0 ∧
           (lcRun (tr.take m)).inWindow = false) ∧
    (cRel0 tr = cRet0 tr → cRel1 tr = cRet1 tr → LcEvent.windowRelease ∈ tr →
      (lcRun tr).freed = true ∧ (lcRun tr).frees = 1) := by
  refine ⟨?_, ?_, freed_moment tr, ?_⟩
  · intro m
    have hc0 : (lcRun (tr.take m)).c0
        = (cRet0 (tr.take m) : Int) - (cRel0 (tr.take m) : Int) := by
      have := lcFold_c0 (tr.take m) lcInit
      simpa [lcRun, lcInit] using this
    have hc1 : (lcRun (tr.take m)).c1
        = (cRet1 (tr.take m) : Int) - (cRel1 (tr.take m) : Int) := by
      have := lcFold_c1 (tr.take m) lcInit
      simpa [lcRun, lcInit] using this
    have h := lcWfB_take tr 0 0 (le_refl 0) (le_refl 0) hbal m
    omega
  · have h := lcRun_good tr
    rcases h with ⟨h1, h2⟩
    cases hf : (lcRun tr).freed
    · rw [h1 hf]; omega
    · rw [h2 hf]
  · intro h0 h1 hw
    have hfr := lc_complete tr hbal h0 h1 hw
    exact ⟨hfr, (lcRun_good tr).2 hfr⟩

/-- Witness for C2: the sample trace is balanced, and the record ends freed
exactly once with counts never negative at any prefix. -/
theorem refcount_discipline_witness :
    LcBalanced c2trace ∧
    (0 ≤ (lcRun (c2trace.take 3)).c0 ∧ 0 ≤ (lcRun (c2trace.take 3)).c1) ∧
    (lcRun c2trace).freed = true ∧ (lcRun c2trace).frees = 1 :=
  ⟨show lcWfB 0 0 c2trace = true by decide,
    (refcount_discipline c2trace (show lcWfB 0 0 c2trace = true by decide)).1 3,
    (refcount_discipline c2trace (show lcWfB 0 0 c2trace = true by decide)).2.2.2
      (by decide) (by decide) (by decide)⟩

/-- Helper: frame 0 of the stream (and of every GOP) is an IDR. -/
lemma frameType_zero (cfg : GopCfg) : frameType cfg 0 = PICTURE_TYPE_IDR := by
  unfold frameType
  rw [if_pos (Nat.zero_mod _)]

/-- Helper: two consecutive pictures are never both B: the frame after a B
is its anchor. -/
lemma frameType_succ_ne_B (cfg : GopCfg) (d : Nat)
    (h : frameType cfg d = PICTURE_TYPE_B) :
    frameType cfg (d + 1) ≠ PICTURE_TYPE_B := by
  unfold frameType at h
  by_cases h0 : d % gopLen cfg = 0
  · rw [if_pos h0] at h; exact absurd h (by decide)
  rw [if_neg h0] at h
  by_cases hb : cfg.b_per_p = 0
  · rw [if_pos hb] at h; exact absurd h (by decide)
  rw [if_neg hb] at h
  by_cases hc : d % gopLen cfg % 2 = 1 ∧ d % gopLen cfg + 1 < gopLen cfg
  · obtain ⟨hc1, hc2⟩ := hc
    have hL : 1 < gopLen cfg := by omega
    have hmod : (d + 1) % gopLen cfg = d % gopLen cfg + 1 := by
      rw [Nat.add_mod, Nat.mod_eq_of_lt hL, Nat.mod_eq_of_lt hc2]
    intro hB2
    unfold frameType at hB2
    rw [hmod] at hB2
    rw [if_neg (by omega)] at hB2
    rw [if_neg hb] at hB2
    rw [if_neg (by omega)] at hB2
    exact absurd hB2 (by decide)
  · rw [if_neg hc] at h; exact absurd h (by decide)

/-- Helper: when frame k is a B, the window left over from the first k
admissions is empty (a deferred B is never followed by another B). -/
lemma windowShape_nil_of_B (cfg : GopCfg) (k : Nat)
    (h : frameType cfg k = PICTURE_TYPE_B) : windowShape cfg k = [] := by
  cases k with
  | zero => rfl
  | succ e =>
    show (if frameType cfg e = PICTURE_TYPE_B then [e] else []) = []
    rw [if_neg]
    intro hBe
    exact frameType_succ_ne_B cfg e hBe h

/-- Helper: moving an element of the window into the issued stream preserves
the combined multiset. -/
lemma perm_move (is : List Nat) (w : List Nat) (d : Nat) (hd : d ∈ w) :
    ((is ++ [d]) ++ w.erase d).Perm (is ++ w) := by
  have h1 : [d] ++ w.erase d = d :: w.erase d := rfl
  have h2 : (d :: w.erase d).Perm w := (List.perm_cons_erase hd).symm
  have h3 := List.Perm.append_left is h2
  rw [List.append_assoc, h1]
  exact h3

/-- Helper: admitting display order k into the window and issuing it at once
keeps the combined stream a permutation of the admitted range. -/
lemma perm_step (is : List Nat) (w : List Nat) (k : Nat)
    (h : (is ++ w).Perm (List.range k)) :
    ((is ++ [k]) ++ (w ++ [k]).erase k).Perm (List.range (k + 1)) := by
  have h1 := perm_move is (w ++ [k]) k (List.mem_append_right w (List.mem_singleton_self k))
  have h2 : is ++ (w ++ [k]) = (is ++ w) ++ [k] := (List.append_assoc is w [k]).symm
  rw [List.range_succ]
  refine h1.trans ?_
  rw [h2]
  exact h.append_right [k]

/-- Helper: issuing the anchor k and then the deferred B picture e keeps the
issued stream a permutation of the admitted range. -/
lemma perm_step2 (is : List Nat) (e k : Nat)
    (h : (is ++ [e]).Perm (List.range k)) :
    (((is ++ [k]) ++ [e]) ++ [e].erase e).Perm (List.range (k + 1)) := by
  have he : [e].erase e = ([] : List Nat) := by simp
  rw [he, List.append_nil, List.range_succ]
  have h1 : (([k] ++ [e]) : List Nat).Perm ([e] ++ [k]) := List.perm_append_comm
  have h2 : ((is ++ [k]) ++ [e]).Perm ((is ++ [e]) ++ [k]) := by
    rw [List.append_assoc, List.append_assoc]
    exact List.Perm.append_left is h1
  exact h2.trans (h.append_right [k])

/-- Helper: the per-picture invariant survives later pictures being appended
to the issued stream. -/
lemma picOk_append (issued : List Pic) (p pic : Pic) (h : PicOk issued pic) :
    PicOk (issued ++ [p]) pic := by
  obtain ⟨h1, h2, h3, h4, h5⟩ := h
  refine ⟨h1, h2, h3, h4, ?_⟩
  intro r hr
  obtain ⟨q, hq1, hq2, hq3⟩ := h5 r hr
  exact ⟨q, List.mem_append_left _ hq1, hq2, hq3⟩

/-- Helper: the picture created by issuePic satisfies the per-picture
invariant, provided its future reference (for a non-drained B) was already
issued. -/
lemma issue_newPicOk (cfg : GopCfg) (ptsOf : Nat → Int) (s : SchedState) (d : Nat)
    (hDpb : s.dpbNow.length ≤ MAX_PICTURE_REFERENCES)
    (hLast : ∀ r, s.lastRef = some r → s.dpbNow.head? = some r)
    (hFut : frameType cfg d = PICTURE_TYPE_B → d + 1 < s.input_order →
      ∃ q ∈ s.issued, q.display_order = d + 1 ∧ q.encode_order < s.encode_order) :
    PicOk (issuePic cfg ptsOf s d).issued (mkPic cfg ptsOf s d) := by
  refine ⟨?_, ?_, ?_, ?_, ?_⟩
  · show (dpbAfter cfg s d).length ≤ MAX_DPB_SIZE
    unfold dpbAfter
    split_ifs
    · show (1 : Nat) ≤ MAX_DPB_SIZE
      decide
    · exact le_trans hDpb (by decide)
    · exact le_trans (List.length_take_le _ _) (by decide)
  · show (buildRefs0 cfg s d).length ≤ MAX_PICTURE_REFERENCES
    unfold buildRefs0
    split_ifs
    · show (0 : Nat) ≤ MAX_PICTURE_REFERENCES
      decide
    · exact le_trans (List.length_take_le _ _) (by decide)
    · exact List.length_take_le _ _
  · show (buildRefs1 cfg s d).length ≤ MAX_PICTURE_REFERENCES
    unfold buildRefs1
    split_ifs
    · show (1 : Nat) ≤ MAX_PICTURE_REFERENCES
      decide
    · show (0 : Nat) ≤ MAX_PICTURE_REFERENCES
      decide
  · intro r hr
    have hr' : (if frameType cfg d = PICTURE_TYPE_IDR then none else s.lastRef)
        = some r := hr
    by_cases hIDR : frameType cfg d = PICTURE_TYPE_IDR
    · rw [if_pos hIDR] at hr'
      exact absurd hr' (by simp)
    · rw [if_neg hIDR] at hr'
      have hhead := hLast r hr'
      obtain ⟨t, ht⟩ : ∃ t, s.dpbNow = r :: t := by
        cases hd2 : s.dpbNow with
        | nil => rw [hd2] at hhead; simp at hhead
        | cons a t =>
          rw [hd2] at hhead
          simp only [List.head?_cons, Option.some.injEq] at hhead
          exact ⟨t, by rw [hhead]⟩
      right; right
      show r ∈ dpbAfter cfg s d
      unfold dpbAfter
      rw [if_neg hIDR]
      by_cases hb : frameType cfg d = PICTURE_TYPE_B
      · rw [if_pos hb, ht]
        exact List.mem_cons_self _ _
      · rw [if_neg hb, ht]
        show r ∈ (d :: r :: t).take MAX_PICTURE_REFERENCES
        have hM : MAX_PICTURE_REFERENCES = 2 := rfl
        rw [hM]
        simp [List.take_succ_cons]
  · intro r hr
    have hr' : r ∈ buildRefs1 cfg s d := hr
    unfold buildRefs1 at hr'
    split_ifs at hr' with hc
    · have hrd : r = d + 1 := by simpa using hr'
      obtain ⟨q, hq1, hq2, hq3⟩ := hFut hc.1 hc.2
      refine ⟨q, List.mem_append_left _ hq1, ?_, ?_⟩
      · rw [hrd]; exact hq2
      · show q.encode_order < s.encode_order
        exact hq3
    · simp at hr'

/-- Helper: issuing any picture of the window preserves the stateful pieces
of the session invariant (encode order numbering, DPB bound, prev tracking
and the per-picture invariants). -/
lemma inv_issue (cfg : GopCfg) (ptsOf : Nat → Int) (s : SchedState) (d : Nat)
    (hEnc : s.encode_order = s.issued.length)
    (hEncL : s.issued.map Pic.encode_order = List.range s.issued.length)
    (hDpb : s.dpbNow.length ≤ MAX_PICTURE_REFERENCES)
    (hLast : ∀ r, s.lastRef = some r → s.dpbNow.head? = some r)
    (hPics : ∀ pic ∈ s.issued, PicOk s.issued pic)
    (hFut : frameType cfg d = PICTURE_TYPE_B → d + 1 < s.input_order →
      ∃ q ∈ s.issued, q.display_order = d + 1 ∧ q.encode_order < s.encode_order) :
    (issuePic cfg ptsOf s d).encode_order = (issuePic cfg ptsOf s d).issued.length ∧
    (issuePic cfg ptsOf s d).issued.map Pic.encode_order
      = List.range (issuePic cfg ptsOf s d).issued.length ∧
    (issuePic cfg ptsOf s d).dpbNow.length ≤ MAX_PICTURE_REFERENCES ∧
    (∀ r, (issuePic cfg ptsOf s d).lastRef = some r →
      (issuePic cfg ptsOf s d).dpbNow.head? = some r) ∧
    (∀ pic ∈ (issuePic cfg ptsOf s d).issued, PicOk (issuePic cfg ptsOf s d).issued pic) := by
  refine ⟨?_, ?_, ?_, ?_, ?_⟩
  · show s.encode_order + 1 = (s.issued ++ [mkPic cfg ptsOf s d]).length
    rw [List.length_append, hEnc]
    rfl
  · show (s.issued ++ [mkPic cfg ptsOf s d]).map Pic.encode_order
      = List.range (s.issued ++ [mkPic cfg ptsOf s d]).length
    have h1 : (s.issued ++ [mkPic cfg ptsOf s d]).map Pic.encode_order
        = s.issued.map Pic.encode_order ++ [s.encode_order] := by
      rw [List.map_append]; rfl
    have h2 : (s.issued ++ [mkPic cfg ptsOf s d]).length = s.issued.length + 1 := by
      simp
    rw [h1, h2, List.range_succ, hEncL, hEnc]
  · show (dpbAfter cfg s d).length ≤ MAX_PICTURE_REFERENCES
    unfold dpbAfter
    split_ifs
    · show (1 : Nat) ≤ MAX_PICTURE_REFERENCES
      decide
    · exact hDpb
    · exact List.length_take_le _ _
  · intro r hr
    have hr' : (if frameType cfg d = PICTURE_TYPE_B then s.lastRef else some d)
        = some r := hr
    show (dpbAfter cfg s d).head? = some r
    unfold dpbAfter
    by_cases hB : frameType cfg d = PICTURE_TYPE_B
    · rw [if_pos hB] at hr'
      have hIDR : ¬ frameType cfg d = PICTURE_TYPE_IDR := by rw [hB]; decide
      rw [if_neg hIDR, if_pos hB]
      exact hLast r hr'
    · rw [if_neg hB] at hr'
      have hrd : d = r := Option.some.inj hr'
      subst hrd
      by_cases hIDR : frameType cfg d = PICTURE_TYPE_IDR
      · rw [if_pos hIDR]
        rfl
      · rw [if_neg hIDR, if_neg hB]
        show ((d :: s.dpbNow).take MAX_PICTURE_REFERENCES).head? = some d
        have hM : MAX_PICTURE_REFERENCES = 2 := rfl
        rw [hM, List.take_succ_cons]
        rfl
  · intro pic hpic
    rcases List.mem_append.mp hpic with hmem | hmem
    · exact picOk_append _ _ _ (hPics pic hmem)
    · have hp : pic = mkPic cfg ptsOf s d := by simpa using hmem
      subst hp
      exact issue_newPicOk cfg ptsOf s d hDpb hLast hFut

/-- Helper: one admission step preserves the session invariant. -/
lemma inv_accept (cfg : GopCfg) (ptsOf : Nat → Int) (k : Nat) (s : SchedState)
    (h : SchedInv cfg k s) : SchedInv cfg (k + 1) (acceptFrame cfg ptsOf s) := by
  obtain ⟨inOrd, encEq, encList, winShape, perm, dpbLen, lastHead, picsOk⟩ := h
  unfold acceptFrame
  rw [inOrd]
  by_cases hB : frameType cfg k = PICTURE_TYPE_B
  · rw [if_pos hB]
    refine ⟨rfl, encEq, encList, ?_, ?_, dpbLen, lastHead, picsOk⟩
    · show s.window ++ [k] = windowShape cfg (k + 1)
      rw [winShape, windowShape_nil_of_B cfg k hB]
      show ([k] : List Nat) = windowShape cfg (k + 1)
      cases k with
      | zero => exact absurd (frameType_zero cfg) (by rw [hB]; decide)
      | succ e =>
        show ([e + 1] : List Nat)
          = if frameType cfg (e + 1) = PICTURE_TYPE_B then [e + 1] else []
        rw [if_pos hB]
    · show (s.issued.map Pic.display_order ++ (s.window ++ [k])).Perm
        (List.range (k + 1))
      rw [← List.append_assoc, List.range_succ]
      exact perm.append_right [k]
  · rw [if_neg hB]
    cases k with
    | zero =>
      show SchedInv cfg (0 + 1) (issuePic cfg ptsOf
        { s with window := s.window ++ [0], input_order := 0 + 1 } 0)
      obtain ⟨hEnc1, hEncL1, hDpb1, hLast1, hPics1⟩ :=
        inv_issue cfg ptsOf
          { s with window := s.window ++ [0], input_order := 0 + 1 } 0
          encEq encList dpbLen lastHead picsOk (fun hc => absurd hc hB)
      refine ⟨rfl, hEnc1, hEncL1, ?_, ?_, hDpb1, hLast1, hPics1⟩
      · show (s.window ++ [0]).erase 0 = windowShape cfg (0 + 1)
        rw [winShape]
        show (([] : List Nat) ++ [0]).erase 0
          = if frameType cfg 0 = PICTURE_TYPE_B then [0] else []
        rw [if_neg hB]
        simp
      · show ((s.issued ++ [mkPic cfg ptsOf
            { s with window := s.window ++ [0], input_order := 0 + 1 } 0]).map
            Pic.display_order ++ (s.window ++ [0]).erase 0).Perm (List.range (0 + 1))
        rw [List.map_append]
        exact perm_step (s.issued.map Pic.display_order) s.window 0 perm
    | succ e =>
      by_cases hBe : frameType cfg e = PICTURE_TYPE_B
      · have hstep : admitIssue cfg ptsOf
            { s with window := s.window ++ [e + 1], input_order := e + 1 + 1 } (e + 1)
            = issuePic cfg ptsOf (issuePic cfg ptsOf
                { s with window := s.window ++ [e + 1], input_order := e + 1 + 1 }
                (e + 1)) e := by
          simp only [admitIssue]
          rw [if_pos hBe]
        rw [hstep]
        obtain ⟨hEnc1, hEncL1, hDpb1, hLast1, hPics1⟩ :=
          inv_issue cfg ptsOf
            { s with window := s.window ++ [e + 1], input_order := e + 1 + 1 } (e + 1)
            encEq encList dpbLen lastHead picsOk (fun hc => absurd hc hB)
        have hFber : frameType cfg e = PICTURE_TYPE_B → e + 1 <
            (issuePic cfg ptsOf
              { s with window := s.window ++ [e + 1], input_order := e + 1 + 1 }
              (e + 1)).input_order →
            ∃ q ∈ (issuePic cfg ptsOf
              { s with window := s.window ++ [e + 1], input_order := e + 1 + 1 }
              (e + 1)).issued,
              q.display_order = e + 1 ∧ q.encode_order <
                (issuePic cfg ptsOf
                  { s with window := s.window ++ [e + 1], input_order := e + 1 + 1 }
                  (e + 1)).encode_order := by
          intro _ _
          refine ⟨mkPic cfg ptsOf
            { s with window := s.window ++ [e + 1], input_order := e + 1 + 1 } (e + 1),
            List.mem_append_right _ (List.mem_singleton_self _), rfl, ?_⟩
          show s.encode_order < s.encode_order + 1
          exact Nat.lt_succ_self _
        obtain ⟨hEnc2, hEncL2, hDpb2, hLast2, hPics2⟩ :=
          inv_issue cfg ptsOf (issuePic cfg ptsOf
              { s with window := s.window ++ [e + 1], input_order := e + 1 + 1 } (e + 1)) e
            hEnc1 hEncL1 hDpb1 hLast1 hPics1 hFber
        have hshape : windowShape cfg (e + 1) = [e] := by
          show (if frameType cfg e = PICTURE_TYPE_B then [e] else []) = [e]
          rw [if_pos hBe]
        have hw1 : (s.window ++ [e + 1]).erase (e + 1) = [e] := by
          rw [winShape, hshape]
          have hne : e ≠ e + 1 := by omega
          simp [List.erase_cons, hne]
        refine ⟨rfl, hEnc2, hEncL2, ?_, ?_, hDpb2, hLast2, hPics2⟩
        · show ((s.window ++ [e + 1]).erase (e + 1)).erase e = windowShape cfg (e + 1 + 1)
          rw [hw1]
          show ([e] : List Nat).erase e
            = if frameType cfg (e + 1) = PICTURE_TYPE_B then [e + 1] else []
          rw [if_neg hB]
          simp
        · show (((s.issued ++ [mkPic cfg ptsOf
              { s with window := s.window ++ [e + 1], input_order := e + 1 + 1 }
              (e + 1)]) ++
              [mkPic cfg ptsOf (issuePic cfg ptsOf
                { s with window := s.window ++ [e + 1], input_order := e + 1 + 1 }
                (e + 1)) e]).map Pic.display_order ++
              ((s.window ++ [e + 1]).erase (e + 1)).erase e).Perm
            (List.range (e + 1 + 1))
          rw [hw1, List.map_append, List.map_append]
          have hperm : (s.issued.map Pic.display_order ++ [e]).Perm (List.range (e + 1)) := by
            have hp := perm
            rw [winShape, hshape] at hp
            exact hp
          exact perm_step2 (s.issued.map Pic.display_order) e (e + 1) hperm
      · have hstep : admitIssue cfg ptsOf
            { s with window := s.window ++ [e + 1], input_order := e + 1 + 1 } (e + 1)
            = issuePic cfg ptsOf
                { s with window := s.window ++ [e + 1], input_order := e + 1 + 1 }
                (e + 1) := by
          simp only [admitIssue]
          rw [if_neg hBe]
        rw [hstep]
        obtain ⟨hEnc1, hEncL1, hDpb1, hLast1, hPics1⟩ :=
          inv_issue cfg ptsOf
            { s with window := s.window ++ [e + 1], input_order := e + 1 + 1 } (e + 1)
            encEq encList dpbLen lastHead picsOk (fun hc => absurd hc hB)
        have hshape : windowShape cfg (e + 1) = [] := by
          show (if frameType cfg e = PICTURE_TYPE_B then [e] else []) = []
          rw [if_neg hBe]
        refine ⟨rfl, hEnc1, hEncL1, ?_, ?_, hDpb1, hLast1, hPics1⟩
        · show (s.window ++ [e + 1]).erase (e + 1) = windowShape cfg (e + 1 + 1)
          rw [winShape, hshape]
          show (([] : List Nat) ++ [e + 1]).erase (e + 1)
            = if frameType cfg (e + 1) = PICTURE_TYPE_B then [e + 1] else []
          rw [if_neg hB]
          simp
        · show ((s.issued ++ [mkPic cfg ptsOf
              { s with window := s.window ++ [e + 1], input_order := e + 1 + 1 }
              (e + 1)]).map Pic.display_order ++
              (s.window ++ [e + 1]).erase (e + 1)).Perm (List.range (e + 1 + 1))
          rw [List.map_append]
          exact perm_step (s.issued.map Pic.display_order) s.window (e + 1) perm

/-- Helper: the session invariant holds after any number of admissions. -/
lemma inv_acceptN (cfg : GopCfg) (ptsOf : Nat → Int) :
    ∀ n, SchedInv cfg n (acceptN cfg ptsOf n) := by
  intro n
  induction n with
  | zero =>
    refine ⟨rfl, rfl, rfl, rfl, List.Perm.refl _, ?_, ?_, ?_⟩
    · show (0 : Nat) ≤ MAX_PICTURE_REFERENCES
      decide
    · intro r hr
      exact Option.noConfusion hr
    · intro pic hpic
      exact absurd hpic (List.not_mem_nil pic)
  | succ n ih => exact inv_accept cfg ptsOf n _ ih

/-- Helper: the properties of the final state of a whole session: the window
has drained empty, encode orders are exactly 0..len-1 in issue order, the
issued display orders are a permutation of the admitted range, and every
issued picture satisfies the per-picture invariants. -/
lemma run_inv (cfg : GopCfg) (ptsOf : Nat → Int) (n : Nat) :
    (runSession cfg ptsOf n).window = [] ∧
    (runSession cfg ptsOf n).issued.map Pic.encode_order
      = List.range (runSession cfg ptsOf n).issued.length ∧
    ((runSession cfg ptsOf n).issued.map Pic.display_order).Perm (List.range n) ∧
    ∀ pic ∈ (runSession cfg ptsOf n).issued,
      PicOk (runSession cfg ptsOf n).issued pic := by
  obtain ⟨inOrd, encEq, encList, winShape, perm, dpbLen, lastHead, picsOk⟩ :=
    inv_acceptN cfg ptsOf n
  unfold runSession
  rw [winShape]
  cases n with
  | zero =>
    show (drainAux cfg ptsOf (acceptN cfg ptsOf 0) []).window = [] ∧ _
    simp only [drainAux]
    refine ⟨?_, encList, ?_, picsOk⟩
    · exact winShape
    · have hp := perm
      rw [winShape] at hp
      have hp2 : ((acceptN cfg ptsOf 0).issued.map Pic.display_order
          ++ ([] : List Nat)).Perm (List.range 0) := hp
      rwa [List.append_nil] at hp2
  | succ e =>
    by_cases hBe : frameType cfg e = PICTURE_TYPE_B
    · have hshape : windowShape cfg (e + 1) = [e] := by
        show (if frameType cfg e = PICTURE_TYPE_B then [e] else []) = [e]
        rw [if_pos hBe]
      rw [hshape]
      show (issuePic cfg ptsOf (acceptN cfg ptsOf (e + 1)) e).window = [] ∧ _
      have hFut : frameType cfg e = PICTURE_TYPE_B →
          e + 1 < (acceptN cfg ptsOf (e + 1)).input_order →
          ∃ q ∈ (acceptN cfg ptsOf (e + 1)).issued, q.display_order = e + 1 ∧
            q.encode_order < (acceptN cfg ptsOf (e + 1)).encode_order := by
        intro _ hlt
        rw [inOrd] at hlt
        exact absurd hlt (lt_irrefl (e + 1))
      obtain ⟨hEnc1, hEncL1, hDpb1, hLast1, hPics1⟩ :=
        inv_issue cfg ptsOf (acceptN cfg ptsOf (e + 1)) e
          encEq encList dpbLen lastHead picsOk hFut
      refine ⟨?_, hEncL1, ?_, hPics1⟩
      · show (acceptN cfg ptsOf (e + 1)).window.erase e = []
        rw [winShape, hshape]
        simp
      · show (((acceptN cfg ptsOf (e + 1)).issued
            ++ [mkPic cfg ptsOf (acceptN cfg ptsOf (e + 1)) e]).map
            Pic.display_order).Perm (List.range (e + 1))
        rw [List.map_append]
        have hp := perm
        rw [winShape, hshape] at hp
        exact hp
    · have hshape : windowShape cfg (e + 1) = [] := by
        show (if frameType cfg e = PICTURE_TYPE_B then [e] else []) = []
        rw [if_neg hBe]
      rw [hshape]
      show (acceptN cfg ptsOf (e + 1)).window = [] ∧ _
      refine ⟨by rw [winShape, hshape], encList, ?_, picsOk⟩
      have hp := perm
      rw [winShape, hshape] at hp
      rwa [List.append_nil] at hp

/-- C1: for every admitted sequence, the encode_order values assigned by the
Scheduler number the issued pictures 0,1,2,... in issue order (so each is
unique and strictly increasing with each scheduling decision), the issued
display orders are a strict permutation of the admitted display orders, and
every picture in a future-reference list of an issued picture was itself
issued (hence admitted) before that picture. -/
theorem sched_encode_order_spec (cfg : GopCfg) (ptsOf : Nat → Int) (n : Nat) :
    ((runSession cfg ptsOf n).issued.map Pic.display_order).Perm (List.range n) ∧
    (runSession cfg ptsOf n).issued.map Pic.encode_order
      = List.range (runSession cfg ptsOf n).issued.length ∧
    ((runSession cfg ptsOf n).issued.map Pic.encode_order).Pairwise (· < ·) ∧
    ∀ pic ∈ (runSession cfg ptsOf n).issued, ∀ r ∈ pic.refs1,
      ∃ q ∈ (runSession cfg ptsOf n).issued,
        q.display_order = r ∧ q.encode_order < pic.encode_order := by
  obtain ⟨hw, hEncL, hPerm, hPics⟩ := run_inv cfg ptsOf n
  refine ⟨hPerm, hEncL, ?_, ?_⟩
  · rw [hEncL]
    exact List.pairwise_lt_range _
  · intro pic hpic r hr
    exact (hPics pic hpic).2.2.2.2 r hr

/-- Witness for C1: in the C7 session, the future reference (display order
2) of the B picture at issue position 2 was issued earlier. -/
theorem sched_encode_order_spec_witness :
    ∃ q ∈ (runSession c7cfg c7pts 8).issued,
      q.display_order = 2 ∧
      q.encode_order < ((runSession c7cfg c7pts 8).issued.getD 2 dPic).encode_order :=
  (sched_encode_order_spec c7cfg c7pts 8).2.2.2
    ((runSession c7cfg c7pts 8).issued.getD 2 dPic) (by decide) 2 (by decide)

/-- C3: after the Reference & DPB Builder processes any picture of any
admitted sequence, its DPB entry count is within the fixed cap
MAX_DPB_SIZE = 16, each of its two reference lists is within the fixed
per-list cap MAX_PICTURE_REFERENCES = 2, and the number of list directions
is MAX_REFERENCE_LIST_NUM = 2 (the past list refs0 and the future list
refs1). -/
theorem dpb_ref_caps (cfg : GopCfg) (ptsOf : Nat → Int) (n : Nat) :
    MAX_DPB_SIZE = 16 ∧ MAX_PICTURE_REFERENCES = 2 ∧ MAX_REFERENCE_LIST_NUM = 2 ∧
    ∀ pic ∈ (runSession cfg ptsOf n).issued,
      pic.dpb.length ≤ MAX_DPB_SIZE ∧
      pic.refs0.length ≤ MAX_PICTURE_REFERENCES ∧
      pic.refs1.length ≤ MAX_PICTURE_REFERENCES := by
  obtain ⟨hw, hEncL, hPerm, hPics⟩ := run_inv cfg ptsOf n
  refine ⟨rfl, rfl, rfl, ?_⟩
  intro pic hpic
  obtain ⟨h1, h2, h3, _, _⟩ := hPics pic hpic
  exact ⟨h1, h2, h3⟩

/-- Witness for C3: the caps hold at the first issued picture of the C7
session. -/
theorem dpb_ref_caps_witness :
    ((runSession c7cfg c7pts 8).issued.getD 0 dPic).dpb.length ≤ MAX_DPB_SIZE ∧
    ((runSession c7cfg c7pts 8).issued.getD 0 dPic).refs0.length
      ≤ MAX_PICTURE_REFERENCES ∧
    ((runSession c7cfg c7pts 8).issued.getD 0 dPic).refs1.length
      ≤ MAX_PICTURE_REFERENCES :=
  (dpb_ref_caps c7cfg c7pts 8).2.2.2 _ (by decide)

/-- C8: signalling end-of-stream drains the engine: after the session
closes, the Admission Window is empty and every admitted picture has been
issued (the issued stream has exactly n pictures). -/
theorem drain_empties_window (cfg : GopCfg) (ptsOf : Nat → Int) (n : Nat) :
    (runSession cfg ptsOf n).window = [] ∧
    (runSession cfg ptsOf n).issued.length = n := by
  obtain ⟨hw, hEncL, hPerm, hPics⟩ := run_inv cfg ptsOf n
  refine ⟨hw, ?_⟩
  have hlen := hPerm.length_eq
  simpa using hlen

/-- C10: every issued picture whose prev back-reference is non-null has that
picture in at least one of its reference lists or its DPB list, after every
Reference & DPB Builder step of every session. -/
theorem prev_in_refs_or_dpb (cfg : GopCfg) (ptsOf : Nat → Int) (n : Nat) :
    ∀ pic ∈ (runSession cfg ptsOf n).issued, ∀ r, pic.prev = some r →
      r ∈ pic.refs0 ∨ r ∈ pic.refs1 ∨ r ∈ pic.dpb := by
  obtain ⟨hw, hEncL, hPerm, hPics⟩ := run_inv cfg ptsOf n
  intro pic hpic r hr
  exact (hPics pic hpic).2.2.2.1 r hr

/-- Witness for C10: the P picture issued second in the C7 session has
prev = 0, which indeed appears in its lists. -/
theorem prev_in_refs_or_dpb_witness :
    0 ∈ ((runSession c7cfg c7pts 8).issued.getD 1 dPic).refs0 ∨
    0 ∈ ((runSession c7cfg c7pts 8).issued.getD 1 dPic).refs1 ∨
    0 ∈ ((runSession c7cfg c7pts 8).issued.getD 1 dPic).dpb :=
  prev_in_refs_or_dpb c7cfg c7pts 8 _ (by decide) 0 (by decide)

/-- C7 (counterexample): the claim's type string does not hold at display
order: with the scenario configuration the picture at display_order 1 is a B
picture, not the P the claim lists second; the display-order type sequence
the engine produces is IDR B P B P B P P, not IDR P B P B P B P. -/
theorem c7_display_types_counterexample :
    ((runSession c7cfg c7pts 8).issued.find? (fun p => p.display_order == 1)).map Pic.type
      = some PICTURE_TYPE_B ∧
    PICTURE_TYPE_B ≠ PICTURE_TYPE_P ∧
    (List.range 8).map (frameType c7cfg)
      = [PICTURE_TYPE_IDR, PICTURE_TYPE_B, PICTURE_TYPE_P, PICTURE_TYPE_B,
         PICTURE_TYPE_P, PICTURE_TYPE_B, PICTURE_TYPE_P, PICTURE_TYPE_P] ∧
    (List.range 8).map (frameType c7cfg)
      ≠ [PICTURE_TYPE_IDR, PICTURE_TYPE_P, PICTURE_TYPE_B, PICTURE_TYPE_P,
         PICTURE_TYPE_B, PICTURE_TYPE_P, PICTURE_TYPE_B, PICTURE_TYPE_P] := by
  refine ⟨by decide, by decide, by decide, by decide⟩

/-- C7 (amended): with GOP size 4, b_depth 1, async_depth 2 and an IDR every
GOP, admitting display orders 0..7 with pts 0,33,67,...,233 produces picture
types IDR P B P B P B P in encode order (display-order types
IDR B P B P B P P), encode order sequence 0,2,1,4,3,6,5,7, monotonically
non-decreasing decode timestamps, and each output paired with its
originating display_order via the ring buffer (output k's ring slot holds
the pts admitted for entry k, and each issued picture carries the pts of its
own display order). -/
theorem c7_scenario :
    (runSession c7cfg c7pts 8).issued.map Pic.display_order = [0, 2, 1, 4, 3, 6, 5, 7] ∧
    (runSession c7cfg c7pts 8).issued.map Pic.type
      = [PICTURE_TYPE_IDR, PICTURE_TYPE_P, PICTURE_TYPE_B, PICTURE_TYPE_P,
         PICTURE_TYPE_B, PICTURE_TYPE_P, PICTURE_TYPE_B, PICTURE_TYPE_P] ∧
    (runSession c7cfg c7pts 8).issued.map Pic.encode_order = [0, 1, 2, 3, 4, 5, 6, 7] ∧
    dtsOutputs c7pts 1 8 = [-33, 0, 34, 67, 100, 134, 167, 200] ∧
    List.Chain' (· ≤ ·) (dtsOutputs c7pts 1 8) ∧
    (List.range 8).map (fun k => ringWriteN c7pts 8 (k % tsRingSize))
      = [0, 33, 67, 100, 133, 167, 200, 233] ∧
    (runSession c7cfg c7pts 8).issued.map Pic.pts = [0, 67, 33, 133, 100, 200, 167, 233] := by
  refine ⟨by decide, by decide, by decide, by decide,
    reconstructDts_chain_none _, by decide, by decide⟩
